import Mathlib

/-!
# Piranha: generic math operations and the series substitution engine

A shallow embedding of `src/substitutable_series.hpp` and `src/math.hpp`.

C++ templates become Lean definitions that are polymorphic in the types the
template is instantiated with; the operations a template body calls on those
types (constructors, `operator*`, `operator+=`, `insert`, ...) are collected in
records of functions passed explicitly.  Range-`for` loops over a container are
recursive functions over the list of elements in iteration order, threading the
loop-carried variable (`retval`).  Compile-time trait values are `Bool`s; a
missing overload or specialisation (a build failure) is `none`.
-/

namespace piranha

/-! ## Terms and series data -/

/-- A series term: the coefficient `m_cf` and the key `m_key`. -/
structure Term (Cf Key : Type) where
  m_cf : Cf
  m_key : Key
deriving DecidableEq, Repr

/-- What `substitutable_series::subs` reads of `*this`: the symbol set
`m_symbol_set` and the terms of `m_container`, listed in iteration order. -/
structure SeriesData (SymSet Cf Key : Type) where
  m_symbol_set : SymSet
  m_container : List (Term Cf Key)

/-- The members of the series type `Derived` that both `subs_impl` overloads
call (declared in `series.hpp`): the default constructor, `set_symbol_set` and
`insert`, each returning the updated object. -/
structure SeriesOps (SymSet Cf Key Derived : Type) where
  default_ctor : Derived
  set_symbol_set : Derived → SymSet → Derived
  insert : Derived → Term Cf Key → Derived

/-- The single-term series of the specification: an empty series given the symbol
set `s_set`, into which the one term `(cf, key)` is inserted. -/
def SeriesOps.single_term_series {SymSet Cf Key Derived : Type}
    (o : SeriesOps SymSet Cf Key Derived) (s_set : SymSet) (cf : Cf) (key : Key) : Derived :=
  o.insert (o.set_symbol_set o.default_ctor s_set) (Term.mk cf key)

namespace substitutable_series

/-! ## Capability score and overload selection -/

/-- Width of `unsigned` used for the score arithmetic. -/
def unsigned_bits : Nat := 32

/-- The conversion `static_cast<unsigned>(b)` of a trait value. -/
def to_unsigned (b : Bool) : Nat := if b then 1 else 0

/-- The constant `subs_term_score<Term,T>::value`:
`static_cast<unsigned>(has_subs) + (static_cast<unsigned>(key_has_subs) << 1u)`,
in `unsigned` arithmetic. -/
def subs_term_score (has_subs key_has_subs : Bool) : Nat :=
  (to_unsigned has_subs + (to_unsigned key_has_subs <<< 1) % 2 ^ unsigned_bits) % 2 ^ unsigned_bits

/-- The two overloads of `subs_impl`. -/
inductive Strategy where
  | cf_only
  | key_only
deriving DecidableEq, Repr

/-- Overload selection by the `enable_if` conditions on the score:
`subs_term_score<Term,T>::value == 1u` enables case 1, `== 2u` enables case 2,
any other score enables no overload. -/
def subs_impl_select (score : Nat) : Option Strategy :=
  if score = 1 then some Strategy.cf_only
  else if score = 2 then some Strategy.key_only
  else none

/-- The static facts about `(Term, T, Derived)` that the declarations of
`subs_impl` and `subs_type` inspect. -/
structure TypeFacts where
  /-- The trait `has_subs<Term::cf_type,T>::value`. -/
  has_subs : Bool
  /-- The trait `key_has_subs<Term::key_type,T>::value`. -/
  key_has_subs : Bool
  /-- Whether `ret_type_1` is well formed: `math::subs(cf,name,x) * Derived` is a valid expression. -/
  ret_type_1_valid : Bool
  /-- Whether `ret_type_2_` is well formed: `key.subs(...)` has a pair `value_type` and `Derived * multiplier` is valid. -/
  ret_type_2_valid : Bool
  /-- The trait `is_addable_in_place<ret_type_2_>::value`. -/
  ret_type_2_addable : Bool
  /-- The trait `std::is_constructible<subs_type_,int>::value`. -/
  subs_type_constructible : Bool
  /-- The trait `is_addable_in_place<subs_type_>::value`. -/
  subs_type_addable : Bool

/-- The overload of `subs_impl` that a call `subs_impl(t,name,x,s_set)` resolves to.
Besides the score condition, an overload takes part only when its return type
(`ret_type_1`, resp. `ret_type_2`) is well formed. -/
def subs_impl_overload (f : TypeFacts) : Option Strategy :=
  match subs_impl_select (subs_term_score f.has_subs f.key_has_subs) with
  | some Strategy.cf_only => if f.ret_type_1_valid then some Strategy.cf_only else none
  | some Strategy.key_only =>
      if f.ret_type_2_valid && f.ret_type_2_addable then some Strategy.key_only else none
  | none => none

/-- Whether `subs_type<T>` exists, that is whether the member `subs` takes part in
overload resolution: `subs_type_` needs a viable `subs_impl`, and the `enable_if`
adds constructibility from `int` and in-place addability. -/
def subs_enabled (f : TypeFacts) : Bool :=
  (subs_impl_overload f).isSome && (f.subs_type_constructible && f.subs_type_addable)

/-- The overload used for a given term and symbol name.  Overload resolution is
static: it sees the types of the term and of the value only, so the term itself
and the name do not enter. -/
def subs_impl_overload_for {Cf Key : Type} (f : TypeFacts) (_t : Term Cf Key)
    (_name : String) : Option Strategy :=
  subs_impl_overload f

/-! ## Case 1: substitution on the coefficient only -/

/-- Operations used by case 1 of `subs_impl`: the series members, `cf_type(1)`,
`math::subs` on the coefficient, and `operator*` between its result and `Derived`. -/
structure Case1Ops (T SymSet Cf Key Derived CfR R : Type) extends
    SeriesOps SymSet Cf Key Derived where
  cf_of_int : Int → Cf
  math_subs : Cf → String → T → CfR
  mul : CfR → Derived → R

/-- Case 1 of `subs_impl` (lines 61-68). -/
def subs_impl_1 {T SymSet Cf Key Derived CfR R : Type}
    (o : Case1Ops T SymSet Cf Key Derived CfR R)
    (t : Term Cf Key) (name : String) (x : T) (s_set : SymSet) : R :=
  let tmp := o.default_ctor
  let tmp := o.set_symbol_set tmp s_set
  let tmp := o.insert tmp (Term.mk (o.cf_of_int 1) t.m_key)
  o.mul (o.math_subs t.m_cf name x) tmp

/-! ## Case 2: substitution on the key only -/

/-- Operations used by case 2 of `subs_impl`: the series members of `Derived`,
the key member `subs`, `operator*` between `Derived` and a multiplier, and on
the result type the default constructor, `set_symbol_set` and `operator+=`. -/
structure Case2Ops (T SymSet Cf Key Derived M R : Type) extends
    SeriesOps SymSet Cf Key Derived where
  key_subs : Key → String → T → SymSet → List (M × Key)
  mul : Derived → M → R
  ret_default_ctor : R
  ret_set_symbol_set : R → SymSet → R
  add_in_place : R → R → R

/-- The loop `for (auto &p: ksubs) { ... retval += tmp * p.first; }` of case 2,
with `retval` threaded through the iterations. -/
def subs_impl_2_loop {T SymSet Cf Key Derived M R : Type}
    (o : Case2Ops T SymSet Cf Key Derived M R) (t : Term Cf Key) (s_set : SymSet) :
    R → List (M × Key) → R
  | retval, [] => retval
  | retval, p :: ps =>
      let tmp := o.default_ctor
      let tmp := o.set_symbol_set tmp s_set
      let tmp := o.insert tmp (Term.mk t.m_cf p.2)
      subs_impl_2_loop o t s_set (o.add_in_place retval (o.mul tmp p.1)) ps

/-- Case 2 of `subs_impl` (lines 77-91). -/
def subs_impl_2 {T SymSet Cf Key Derived M R : Type}
    (o : Case2Ops T SymSet Cf Key Derived M R)
    (t : Term Cf Key) (name : String) (x : T) (s_set : SymSet) : R :=
  let retval := o.ret_default_ctor
  let retval := o.ret_set_symbol_set retval s_set
  let ksubs := o.key_subs t.m_key name x s_set
  subs_impl_2_loop o t s_set retval ksubs

/-! ## The member `subs` -/

/-- Operations `subs` needs of its result type `subs_type<T>`: construction from
an `int` and `operator+=`. -/
structure ResultOps (R : Type) where
  of_int : Int → R
  add_in_place : R → R → R

/-- The loop `for (const auto &t: this->m_container) retval += subs_impl(...)`
of `subs`, with `retval` threaded through the iterations. -/
def subs_loop {T SymSet Cf Key R : Type} (r : ResultOps R)
    (subs_impl : Term Cf Key → String → T → SymSet → R)
    (name : String) (x : T) (s_set : SymSet) : R → List (Term Cf Key) → R
  | retval, [] => retval
  | retval, t :: ts =>
      subs_loop r subs_impl name x s_set (r.add_in_place retval (subs_impl t name x s_set)) ts

/-- The member `substitutable_series::subs` (lines 120-128); `subs_impl` is the
overload selected for the term type. -/
def subs {T SymSet Cf Key R : Type} (r : ResultOps R)
    (subs_impl : Term Cf Key → String → T → SymSet → R)
    (self : SeriesData SymSet Cf Key) (name : String) (x : T) : R :=
  let retval := r.of_int 0
  subs_loop r subs_impl name x self.m_symbol_set retval self.m_container

/-! ## The `math::subs` functor for substitutable series -/

/-- What the enabler `subs_impl_subs_series_enabler<Series,T>` inspects of a type:
whether it derives from `substitutable_series_tag`, and its member `subs` for a
`T` argument when the call `s.subs(name,x)` is well formed. -/
structure SubsSeriesType (Series T R : Type) where
  is_base_of_tag : Bool
  member_subs : Option (Series → String → T → R)

end substitutable_series

namespace detail

/-- The condition of `subs_impl_subs_series_enabler` (lines 135-139). -/
def subs_impl_subs_series_enabler {Series T R : Type}
    (ty : substitutable_series.SubsSeriesType Series T R) : Bool :=
  ty.is_base_of_tag && ty.member_subs.isSome

end detail

namespace math

/-- The call operator of the specialisation `subs_impl<Series,T,enabler>`
(lines 146-153): it returns `s.subs(name,x)`. -/
def subs_impl_series_call {Series T R : Type} (member_subs : Series → String → T → R)
    (s : Series) (name : String) (x : T) : R :=
  member_subs s name x

/-- Modelled from the spec: the function `math::subs` itself is declared outside the
excerpt; it has no default and forwards to the call operator of the matching
`subs_impl` specialisation.  Only the specialisation for substitutable series is
part of the source, so any other type has no implementation here. -/
def subs {Series T R : Type} (ty : substitutable_series.SubsSeriesType Series T R)
    (s : Series) (name : String) (x : T) : Option R :=
  if detail.subs_impl_subs_series_enabler ty then
    match ty.member_subs with
    | some member_subs => some (subs_impl_series_call member_subs s name x)
    | none => none
  else none

end math

/-! ## Zero test (`math.hpp`) -/

namespace detail

/-- Operations the default zero test needs of `T`: the conversion `T(0)` from an
integral constant and `operator==`. -/
structure ZeroTestOps (T : Type) where
  of_int : Int → T
  eq : T → T → Bool

/-- A selected specialisation `math_is_zero_impl<T>`: its static member `run`. -/
structure math_is_zero_impl (T : Type) where
  run : T → Bool

/-- The primary template of `math_is_zero_impl` (lines 41-50): `x == T(0)`. -/
def math_is_zero_impl.primary {T : Type} (o : ZeroTestOps T) : math_is_zero_impl T where
  run := fun x => o.eq x (o.of_int 0)

/-- A value of `std::complex<V>` seen through `real()` and `imag()`. -/
structure complex (V : Type) where
  real : V
  imag : V
deriving DecidableEq, Repr

/-- The specialisation of `math_is_zero_impl` for complex types (lines 53-61):
the implementation selected for `T::value_type`, run on both parts. -/
def math_is_zero_impl.for_complex {V : Type} (value_impl : math_is_zero_impl V) :
    math_is_zero_impl (complex V) where
  run := fun c => value_impl.run c.real && value_impl.run c.imag

end detail

namespace math

/-- The function `math::is_zero` (lines 140-144): `math_is_zero_impl<T>::run(x)`. -/
def is_zero {T : Type} (impl : detail.math_is_zero_impl T) (x : T) : Bool :=
  impl.run x

end math

/-! ## Numeric types used to instantiate the templates -/

namespace numeric

/-- Conversion of an integer to a `w`-bit unsigned integral type (value modulo `2^w`). -/
def unsigned_of_int (w : Nat) (n : Int) : Int := n % 2 ^ w

/-- Conversion of an integer to a `w`-bit two's complement signed integral type. -/
def signed_of_int (w : Nat) (n : Int) : Int := (n + 2 ^ (w - 1)) % 2 ^ w - 2 ^ (w - 1)

/-- Zero-test operations of a `w`-bit unsigned integral type. -/
def unsigned_ops (w : Nat) : detail.ZeroTestOps Int where
  of_int := unsigned_of_int w
  eq := fun a b => decide (a = b)

/-- Zero-test operations of a `w`-bit signed integral type. -/
def signed_ops (w : Nat) : detail.ZeroTestOps Int where
  of_int := signed_of_int w
  eq := fun a b => decide (a = b)

/-- Zero-test operations of the arbitrary-precision `integer`. -/
def integer_ops : detail.ZeroTestOps Int where
  of_int := fun n => n
  eq := fun a b => decide (a = b)

/-- Zero-test operations of an exact rational type. -/
def rational_ops : detail.ZeroTestOps Rat where
  of_int := fun n => (n : Rat)
  eq := fun a b => decide (a = b)

end numeric

/-! ## In-place negation (`math.hpp`) -/

namespace detail

/-- Operation the default negation needs of `T`: the unary `operator-`, with the
conversion back to `T` that the assignment `x = -x` performs. -/
structure NegateOps (T : Type) where
  neg : T → T

/-- The primary template of `math_negate_impl` (lines 64-71): `x = -x`; the
argument is `x` on entry, the result is `x` on exit. -/
def math_negate_impl.run {T : Type} (o : NegateOps T) (x : T) : T :=
  o.neg x

end detail

namespace math

/-- The function `math::negate` (lines 153-157): `math_negate_impl<T>::run(x)`. -/
def negate {T : Type} (o : detail.NegateOps T) (x : T) : T :=
  detail.math_negate_impl.run o x

end math

namespace numeric

/-- A fixed-width integral type: signedness and width in bits. -/
structure IntegralType where
  is_signed : Bool
  bits : Nat
deriving DecidableEq, Repr

/-- Conversion of an integer to a fixed-width integral type, modulo `2^bits`. -/
def IntegralType.of_int (ty : IntegralType) (n : Int) : Int :=
  if ty.is_signed then signed_of_int ty.bits n else unsigned_of_int ty.bits n

/-- The values of a fixed-width integral type. -/
def IntegralType.in_range (ty : IntegralType) (x : Int) : Prop :=
  if ty.is_signed then 1 ≤ ty.bits ∧ -(2 ^ (ty.bits - 1)) ≤ x ∧ x < 2 ^ (ty.bits - 1)
  else 0 ≤ x ∧ x < 2 ^ ty.bits

/-- Negation on a fixed-width integral type: the negated value taken modulo `2^bits`. -/
def integral_negate_ops (ty : IntegralType) : detail.NegateOps Int where
  neg := fun x => ty.of_int (-x)

/-- Negation on the arbitrary-precision `integer`. -/
def integer_negate_ops : detail.NegateOps Int where
  neg := fun x => -x

/-- Negation on an exact rational type. -/
def rational_negate_ops : detail.NegateOps Rat where
  neg := fun x => -x

end numeric

/-! ## Exponentiation (`math.hpp`) -/

namespace numeric

/-- The classification of operand types that the traits of `pow_impl` and
`float_pow_impl` distinguish. -/
inductive TypeKind where
  | floating_point
  | integral
  | integer
  | other
deriving DecidableEq, Repr

/-- The trait `std::is_floating_point<U>::value`. -/
def TypeKind.is_floating_point : TypeKind → Bool
  | TypeKind.floating_point => true
  | _ => false

/-- The trait `std::is_integral<U>::value`. -/
def TypeKind.is_integral : TypeKind → Bool
  | TypeKind.integral => true
  | _ => false

/-- The trait `std::is_same<integer,U>::value`. -/
def TypeKind.is_same_integer : TypeKind → Bool
  | TypeKind.integer => true
  | _ => false

/-- The failure of a conversion to `int`. -/
inductive conversion_error where
  | negative_overflow
  | positive_overflow
deriving DecidableEq, Repr

/-- The smallest value of an `int` of `w` bits. -/
def int_min (w : Nat) : Int := -(2 ^ (w - 1))

/-- The largest value of an `int` of `w` bits. -/
def int_max (w : Nat) : Int := 2 ^ (w - 1) - 1

/-- The conversion `boost::numeric_cast<int>(n)` of a value `n` of an integral type:
it checks the range of `int` and throws on overflow, otherwise keeps the value. -/
def numeric_cast_int (w : Nat) (n : Int) : Except conversion_error Int :=
  if n < int_min w then Except.error conversion_error.negative_overflow
  else if int_max w < n then Except.error conversion_error.positive_overflow
  else Except.ok n

/-- Modelled from the spec: the conversion `static_cast<int>(n)` of a
`piranha::integer`, whose class is declared outside the excerpt
(`detail/integer_fwd.hpp` only forwards it): "narrowing an arbitrary-precision
exponent to a native integer width ... can fail if the value is out of range;
this must raise a reported conversion error, never silently truncate or wrap". -/
def integer_static_cast_int (w : Nat) (n : Int) : Except conversion_error Int :=
  if n < int_min w then Except.error conversion_error.negative_overflow
  else if int_max w < n then Except.error conversion_error.positive_overflow
  else Except.ok n

end numeric

namespace detail

/-- The three overloads of `float_pow_impl`, named by what they do to the exponent. -/
inductive FloatPowOverload where
  | numeric_cast_to_int
  | static_cast_to_int
  | no_conversion
deriving DecidableEq, Repr

/-- The `enable_if` condition of each overload of `float_pow_impl` (lines 99-118)
on the exponent type `U`. -/
def FloatPowOverload.enabled (U : numeric.TypeKind) : FloatPowOverload → Bool
  | FloatPowOverload.numeric_cast_to_int => U.is_integral
  | FloatPowOverload.static_cast_to_int => U.is_same_integer
  | FloatPowOverload.no_conversion => U.is_floating_point

/-- The overloads of `float_pow_impl` that take part in the resolution of a call
with exponent type `U`, in declaration order. -/
def float_pow_impl_viable (U : numeric.TypeKind) : List FloatPowOverload :=
  [FloatPowOverload.numeric_cast_to_int, FloatPowOverload.static_cast_to_int,
    FloatPowOverload.no_conversion].filter (FloatPowOverload.enabled U)

/-- The overload that a call `float_pow_impl(x,y)` resolves to: the single viable
one; no viable overload or several are a build failure. -/
def float_pow_impl_resolve (U : numeric.TypeKind) : Option FloatPowOverload :=
  match float_pow_impl_viable U with
  | [o] => some o
  | _ => none

/-- The overload of `float_pow_impl` for an integral exponent (lines 99-104):
`std::pow(x, boost::numeric_cast<int>(n))`. -/
def float_pow_impl_integral {F : Type} (std_pow_int : F → Int → F) (w : Nat)
    (x : F) (n : Int) : Except numeric.conversion_error F :=
  match numeric.numeric_cast_int w n with
  | Except.ok k => Except.ok (std_pow_int x k)
  | Except.error e => Except.error e

/-- The overload of `float_pow_impl` for a `piranha::integer` exponent (lines 106-111):
`std::pow(x, static_cast<int>(n))`. -/
def float_pow_impl_integer {F : Type} (std_pow_int : F → Int → F) (w : Nat)
    (x : F) (n : Int) : Except numeric.conversion_error F :=
  match numeric.integer_static_cast_int w n with
  | Except.ok k => Except.ok (std_pow_int x k)
  | Except.error e => Except.error e

/-- The overload of `float_pow_impl` for a floating-point exponent (lines 113-118):
`std::pow(x, y)`. -/
def float_pow_impl_floating {F : Type} (std_pow : F → F → F)
    (x : F) (y : F) : Except numeric.conversion_error F :=
  Except.ok (std_pow x y)

end detail

namespace math

/-- The `enable_if` condition of the specialisation of `pow_impl` for
floating-point bases (lines 195-197). -/
def pow_impl_enabled (T U : numeric.TypeKind) : Bool :=
  T.is_floating_point && (U.is_floating_point || U.is_integral || U.is_same_integer)

/-- The implementation that `math::pow(x, y)` resolves to for operand types `T`, `U`:
the primary `pow_impl` has no call operator, the specialisation calls
`float_pow_impl`; `none` is a build failure. -/
def pow_resolve (T U : numeric.TypeKind) : Option detail.FloatPowOverload :=
  if pow_impl_enabled T U then detail.float_pow_impl_resolve U else none

/-- An exponent value together with the kind of its type. -/
inductive Exponent (F : Type) where
  | integral (n : Int)
  | integer (n : Int)
  | floating (y : F)

/-- The kind of the type of an exponent value. -/
def Exponent.kind {F : Type} : Exponent F → numeric.TypeKind
  | Exponent.integral _ => numeric.TypeKind.integral
  | Exponent.integer _ => numeric.TypeKind.integer
  | Exponent.floating _ => numeric.TypeKind.floating_point

/-- The function `math::pow` (lines 231-235) for a floating-point base: the call
operator of the `pow_impl` specialisation (lines 211-214), which calls the
overload of `float_pow_impl` selected by the exponent type.  `std_pow_int` and
`std_pow` are the overloads of `std::pow` for an `int` and for a floating-point
exponent, `w` is the width of `int`. -/
def pow {F : Type} (std_pow_int : F → Int → F) (std_pow : F → F → F) (w : Nat)
    (x : F) : Exponent F → Except numeric.conversion_error F
  | Exponent.integral n => detail.float_pow_impl_integral std_pow_int w x n
  | Exponent.integer n => detail.float_pow_impl_integer std_pow_int w x n
  | Exponent.floating y => detail.float_pow_impl_floating std_pow x y

end math

/-! ## Multiply-accumulate (`math.hpp`) -/

namespace numeric

/-- The exact value `mant * 2^exp` of an operation on finite floating-point
values, before rounding. -/
structure Dyadic where
  mant : Int
  exp : Int
deriving DecidableEq, Repr

/-- The exact product of two values. -/
def Dyadic.exact_mul (a b : Dyadic) : Dyadic :=
  Dyadic.mk (a.mant * b.mant) (a.exp + b.exp)

/-- The exact sum of two values, on the smaller of the two exponents. -/
def Dyadic.exact_add (a b : Dyadic) : Dyadic :=
  let e := min a.exp b.exp
  Dyadic.mk (a.mant * 2 ^ (a.exp - e).toNat + b.mant * 2 ^ (b.exp - e).toNat) e

/-- Number of binary digits of a natural number, by halving. -/
def bit_length_aux : Nat → Nat → Nat
  | 0, _ => 0
  | fuel + 1, n => if n = 0 then 0 else bit_length_aux fuel (n / 2) + 1

/-- Number of binary digits of a natural number (0 for 0). -/
def bit_length (n : Nat) : Nat := bit_length_aux n n

/-- A binary floating-point format of IEEE 754: the number of digits of the
significand and the largest exponent; the smallest normal exponent is `1 - emax`. -/
structure FloatFormat where
  precision : Nat
  emax : Int
deriving DecidableEq, Repr

/-- The format of `double`: 53 digits, exponents from -1022 to 1023. -/
def binary64 : FloatFormat := FloatFormat.mk 53 1023

/-- The exponent of the last digit of the subnormal numbers of a format, its
smallest quantum (`-1074` for `double`). -/
def FloatFormat.qmin (f : FloatFormat) : Int := (1 - f.emax) - ((f.precision : Int) - 1)

/-- A value of a floating-point type: a NaN, an infinity with its sign, or a finite
number `(-1)^neg * mant * 2^exp`; `mant = 0` gives the two signed zeros. -/
inductive FP where
  | nan
  | inf (neg : Bool)
  | finite (neg : Bool) (mant : Nat) (exp : Int)
deriving DecidableEq, Repr

/-- The quotient `n / 2^shift` rounded to the nearest integer, ties to even. -/
def round_half_even (n shift : Nat) : Nat :=
  if shift = 0 then n
  else
    let q := n / 2 ^ shift
    let rem := n % 2 ^ shift
    let half := 2 ^ (shift - 1)
    if rem < half then q else if half < rem then q + 1
    else if q % 2 = 0 then q else q + 1

/-- Rounding of the exact magnitude `mant * 2^exp` with a sign to a format, to
nearest with ties to even: the quantum is that of the binade of the value, not
below the subnormal quantum (gradual underflow, down to a signed zero), and a
rounded value beyond the largest exponent is an infinity.  A value that needs
no rounding is returned as it is given. -/
def FloatFormat.round (f : FloatFormat) (neg : Bool) (mant : Nat) (exp : Int) : FP :=
  if mant = 0 then FP.finite neg 0 exp
  else
    let top := exp + (bit_length mant : Int) - 1
    let q := max (top - ((f.precision : Int) - 1)) f.qmin
    let m := if q ≤ exp then mant else round_half_even mant (q - exp).toNat
    let e := if q ≤ exp then exp else q
    if f.emax < e + (bit_length m : Int) - 1 then FP.inf neg else FP.finite neg m e

/-- The significand of a finite value with its sign. -/
def signed_mant (neg : Bool) (mant : Nat) : Int := if neg then -(mant : Int) else (mant : Int)

/-- Rounding of an exact sum: an exact zero is negative only when both operands
are negative, any other value is rounded with its own sign. -/
def FloatFormat.round_sum (f : FloatFormat) (both_neg : Bool) (d : Dyadic) : FP :=
  if d.mant = 0 then FP.finite both_neg 0 d.exp
  else f.round (decide (d.mant < 0)) d.mant.natAbs d.exp

/-- The product `operator*` of a floating-point type: the exact product rounded;
infinity times zero is a NaN. -/
def float_mul (f : FloatFormat) : FP → FP → FP
  | FP.nan, _ => FP.nan
  | _, FP.nan => FP.nan
  | FP.inf s, FP.inf t => FP.inf (xor s t)
  | FP.inf s, FP.finite t m _ => if m = 0 then FP.nan else FP.inf (xor s t)
  | FP.finite s m _, FP.inf t => if m = 0 then FP.nan else FP.inf (xor s t)
  | FP.finite s m e, FP.finite t n k => f.round (xor s t) (m * n) (e + k)

/-- The sum `operator+` (and `operator+=`) of a floating-point type: the exact sum
rounded; infinities of opposite signs give a NaN. -/
def float_add (f : FloatFormat) : FP → FP → FP
  | FP.nan, _ => FP.nan
  | _, FP.nan => FP.nan
  | FP.inf s, FP.inf t => if s = t then FP.inf s else FP.nan
  | FP.inf s, FP.finite _ _ _ => FP.inf s
  | FP.finite _ _ _, FP.inf t => FP.inf t
  | FP.finite s m e, FP.finite t n k =>
      f.round_sum (s && t)
        ((Dyadic.mk (signed_mant s m) e).exact_add (Dyadic.mk (signed_mant t n) k))

/-- The function `std::fma(a, b, c)` of a floating-point type: `a*b + c` computed
exactly and rounded once. -/
def float_fma (f : FloatFormat) : FP → FP → FP → FP
  | FP.nan, _, _ => FP.nan
  | _, FP.nan, _ => FP.nan
  | _, _, FP.nan => FP.nan
  | FP.inf s, FP.inf t, c => float_add f (FP.inf (xor s t)) c
  | FP.inf s, FP.finite t m _, c => if m = 0 then FP.nan else float_add f (FP.inf (xor s t)) c
  | FP.finite s m _, FP.inf t, c => if m = 0 then FP.nan else float_add f (FP.inf (xor s t)) c
  | FP.finite _ _ _, FP.finite _ _ _, FP.inf u => FP.inf u
  | FP.finite s m e, FP.finite t n k, FP.finite u l j =>
      f.round_sum (xor s t && u)
        (((Dyadic.mk (signed_mant s m) e).exact_mul (Dyadic.mk (signed_mant t n) k)).exact_add
          (Dyadic.mk (signed_mant u l) j))

/-- The unary `operator-` of a floating-point type: the sign is flipped; a NaN
stays a NaN. -/
def float_neg : FP → FP
  | FP.nan => FP.nan
  | FP.inf s => FP.inf (!s)
  | FP.finite s m e => FP.finite (!s) m e

/-- The comparison `operator==` of a floating-point type: a NaN is equal to
nothing, itself included; otherwise equality of the numbers denoted, so the two
zeros are equal. -/
def float_eq : FP → FP → Bool
  | FP.nan, _ => false
  | _, FP.nan => false
  | FP.inf s, FP.inf t => s == t
  | FP.inf _, FP.finite _ _ _ => false
  | FP.finite _ _ _, FP.inf _ => false
  | FP.finite s m e, FP.finite t n k =>
      let x := min e k
      signed_mant s m * 2 ^ (e - x).toNat == signed_mant t n * 2 ^ (k - x).toNat

end numeric

namespace detail

/-- Operations the default multiply-accumulate needs: `operator*` between `U` and
`V`, and `operator+=` of `T` with the product. -/
structure MultiplyAccumulateOps (T U V P : Type) where
  mul : U → V → P
  add_in_place : T → P → T

/-- The primary template of `math_multiply_accumulate_impl` (lines 74-82):
`x += y * z`; the result gives `x`, `y` and `z` on exit. -/
def math_multiply_accumulate_impl.run {T U V P : Type} (o : MultiplyAccumulateOps T U V P)
    (x : T) (y : U) (z : V) : T × U × V :=
  (o.add_in_place x (o.mul y z), y, z)

/-- The specialisation of `math_multiply_accumulate_impl` for floating-point types
when fast FMA is available (lines 84-96): `x = std::fma(y,z,x)`; the result gives
`x`, `y` and `z` on exit. -/
def math_multiply_accumulate_impl.run_fma {T : Type} (fma : T → T → T → T)
    (x y z : T) : T × T × T :=
  (fma y z x, y, z)

end detail

namespace numeric

/-- The operators of a floating-point type that the default multiply-accumulate
uses, for `x += y * z` evaluated as written: the product is rounded, then the
sum is rounded (no contraction of the expression into a fused operation). -/
def float_multiply_accumulate_ops (f : FloatFormat) :
    detail.MultiplyAccumulateOps FP FP FP FP where
  mul := float_mul f
  add_in_place := float_add f

/-- Negation on a floating-point type. -/
def float_negate_ops : detail.NegateOps FP where
  neg := float_neg

/-- The operators of the arbitrary-precision `integer` that the default
multiply-accumulate uses. -/
def integer_multiply_accumulate_ops : detail.MultiplyAccumulateOps Int Int Int Int where
  mul := fun a b => a * b
  add_in_place := fun a b => a + b

end numeric

namespace math

/-- The function `math::multiply_accumulate` (lines 174-179) where the primary
template of `math_multiply_accumulate_impl` is selected. -/
def multiply_accumulate {T U V P : Type} (o : detail.MultiplyAccumulateOps T U V P)
    (x : T) (y : U) (z : V) : T × U × V :=
  detail.math_multiply_accumulate_impl.run o x y z

/-- The function `math::multiply_accumulate` (lines 174-179) on three operands of one
floating-point type of format `f`: the specialisation with `std::fma` is
compiled, and then selected, only when the `FP_FAST_FMA` macros are defined;
otherwise the primary template is used. -/
def multiply_accumulate_floating (fp_fast_fma : Bool) (f : numeric.FloatFormat)
    (x y z : numeric.FP) : numeric.FP × numeric.FP × numeric.FP :=
  if fp_fast_fma then detail.math_multiply_accumulate_impl.run_fma (numeric.float_fma f) x y z
  else detail.math_multiply_accumulate_impl.run (numeric.float_multiply_accumulate_ops f) x y z

end math

/-! ## A polynomial instance of the external series interface

The series container, the symbol set and the monomial key live in headers that
are not part of the excerpt (`series.hpp`, `symbol_set.hpp`, the key classes).
The definitions of this section model them from the specification, to run the
engine end to end on concrete series. -/

namespace model

/-- Modelled from the spec: the symbol set of `symbol_set.hpp`, "an ordered,
de-duplicated sequence of symbols that a series is expressed over". -/
abbrev symbol_set := List String

/-- Modelled from the spec: a monomial key, "a monomial exponent vector", holding
one exponent per symbol of the owning series' symbol set. -/
abbrev monomial := List Nat

/-- Modelled from the spec: a series of `series.hpp` with integer coefficients and
monomial keys, "a finite ... iterable collection of terms plus an owned symbol
set"; the list gives the iteration order. -/
structure polynomial where
  m_symbol_set : symbol_set
  m_container : List (Term Int monomial)
deriving DecidableEq, Repr

/-- Modelled from the spec: the container side of `insert`, which "merges a term
into the collection, summing coefficients when an equal key is already present". -/
def insert_term : List (Term Int monomial) → Term Int monomial → List (Term Int monomial)
  | [], t => [t]
  | u :: us, t =>
      if u.m_key = t.m_key then Term.mk (u.m_cf + t.m_cf) u.m_key :: us
      else u :: insert_term us t

/-- Modelled from the spec: the default constructor of a series, no terms and no symbols. -/
def polynomial.default_ctor : polynomial := polynomial.mk [] []

/-- Modelled from the spec: the member `set_symbol_set` of a series. -/
def polynomial.set_symbol_set (p : polynomial) (s : symbol_set) : polynomial :=
  polynomial.mk s p.m_container

/-- Modelled from the spec: the member `insert` of a series. -/
def polynomial.insert (p : polynomial) (t : Term Int monomial) : polynomial :=
  polynomial.mk p.m_symbol_set (insert_term p.m_container t)

/-- Modelled from the spec: construction of a series from an integer; the literal 0
gives "the deduced result type's zero value", a series with no terms (and no
symbols), any other integer a constant term. -/
def polynomial.of_int (n : Int) : polynomial :=
  if n = 0 then polynomial.default_ctor
  else polynomial.insert polynomial.default_ctor (Term.mk n [])

/-- Modelled from the spec: multiplication of a series by a scalar, on every coefficient. -/
def polynomial.mul_scalar (p : polynomial) (m : Int) : polynomial :=
  polynomial.mk p.m_symbol_set (p.m_container.map (fun t => Term.mk (t.m_cf * m) t.m_key))

/-- Modelled from the spec: the exponent a key gives to a symbol, 0 when the symbol
is not in the symbol set. -/
def exponent_of : symbol_set → monomial → String → Nat
  | sym :: syms, e :: es, name => if sym = name then e else exponent_of syms es name
  | _, _, _ => 0

/-- Modelled from the spec: a key re-expressed over another symbol set. -/
def rekey (old new : symbol_set) (k : monomial) : monomial :=
  new.map (fun sym => exponent_of old k sym)

/-- Modelled from the spec: in-place addition of series.  When the symbol sets
differ the terms of both operands are re-expressed over the merged symbol set;
then every term of the right operand is inserted into the left one. -/
def polynomial.add_in_place (a b : polynomial) : polynomial :=
  if a.m_symbol_set = b.m_symbol_set then
    polynomial.mk a.m_symbol_set (b.m_container.foldl insert_term a.m_container)
  else
    let merged := a.m_symbol_set ++ b.m_symbol_set.filter (fun sym => !a.m_symbol_set.contains sym)
    let lhs := a.m_container.map (fun t => Term.mk t.m_cf (rekey a.m_symbol_set merged t.m_key))
    let rhs := b.m_container.map (fun t => Term.mk t.m_cf (rekey b.m_symbol_set merged t.m_key))
    polynomial.mk merged (rhs.foldl insert_term lhs)

/-- Modelled from the spec: whether a monomial key depends on a symbol. -/
def key_depends (s : symbol_set) (k : monomial) (name : String) : Bool :=
  exponent_of s k name != 0

/-- Modelled from the spec: the key with the symbol removed (its exponent set to 0). -/
def remove_symbol : symbol_set → monomial → String → monomial
  | sym :: syms, e :: es, name => (if sym = name then 0 else e) :: remove_symbol syms es name
  | _, es, _ => es

/-- Modelled from the spec: the member `subs` of a monomial key: substituting `v`
for a symbol of exponent `e` yields the single pair `(v^e, key with the symbol removed)`. -/
def monomial_subs (k : monomial) (name : String) (v : Int) (s : symbol_set) :
    List (Int × monomial) :=
  [(v ^ exponent_of s k name, remove_symbol s k name)]

/-- The series members of `polynomial`, as the engine calls them. -/
def polynomial_series_ops : SeriesOps symbol_set Int monomial polynomial where
  default_ctor := polynomial.default_ctor
  set_symbol_set := polynomial.set_symbol_set
  insert := polynomial.insert

/-- Case 2 of `subs_impl` instantiated for `polynomial` and an integer value. -/
def polynomial_case2 :
    substitutable_series.Case2Ops Int symbol_set Int monomial polynomial Int polynomial where
  toSeriesOps := polynomial_series_ops
  key_subs := monomial_subs
  mul := polynomial.mul_scalar
  ret_default_ctor := polynomial.default_ctor
  ret_set_symbol_set := polynomial.set_symbol_set
  add_in_place := polynomial.add_in_place

/-- The result type operations of `subs` for `polynomial`. -/
def polynomial_result_ops : substitutable_series.ResultOps polynomial where
  of_int := polynomial.of_int
  add_in_place := polynomial.add_in_place

/-- Modelled from the spec: the static facts of a series with plain-number
coefficients and monomial keys: `math::subs` has no default, so the coefficient
has no substitution, while the key has one; the result types are series. -/
def polynomial_facts : substitutable_series.TypeFacts where
  has_subs := false
  key_has_subs := true
  ret_type_1_valid := false
  ret_type_2_valid := true
  ret_type_2_addable := true
  subs_type_constructible := true
  subs_type_addable := true

/-- The member `subs` of `polynomial` for an integer value: the key-only overload
is the one its term type selects. -/
def polynomial.subs (p : polynomial) (name : String) (x : Int) : polynomial :=
  substitutable_series.subs polynomial_result_ops
    (substitutable_series.subs_impl_2 polynomial_case2)
    (SeriesData.mk p.m_symbol_set p.m_container) name x

/-- Result type operations of a plain integer result: `int` construction and `+=`. -/
def integer_result_ops : substitutable_series.ResultOps Int where
  of_int := fun n => n
  add_in_place := fun a b => a + b

/-- A per-term contribution with an integer result: the term evaluated at the
value substituted for the symbol. -/
def eval_term (t : Term Int monomial) (name : String) (x : Int) (s : symbol_set) : Int :=
  t.m_cf * x ^ exponent_of s t.m_key name

/-- The series `3*x^2 + y` over the symbols `x`, `y`. -/
def example_series : polynomial :=
  polynomial.mk ["x", "y"] [Term.mk 3 [2, 0], Term.mk 1 [0, 1]]

end model

end piranha

/-! # Theorems -/

namespace piranha

open substitutable_series

/-! ## Helper lemmas: arithmetic of the integral conversions -/

/-- Powers of two are at least 1. -/
theorem numeric.one_le_two_pow (w : Nat) : (1 : Int) ≤ 2 ^ w := by
  have h : (0 : Int) < 2 ^ w := by positivity
  linarith [Int.add_one_le_iff.mpr h]

/-- The value 1 fits every unsigned type of at least one bit. -/
theorem numeric.one_emod_two_pow (w : Nat) : (1 : Int) % 2 ^ (w + 1) = 1 := by
  have h := numeric.one_le_two_pow w
  have e1 : (2 : Int) ^ (w + 1) = 2 * 2 ^ w := by rw [pow_succ]; ring
  apply Int.emod_eq_of_lt (by norm_num)
  rw [e1]; linarith

/-- The offset image of 0 fits every signed type of at least two bits. -/
theorem numeric.offset_emod_two_pow (w : Nat) :
    ((2 : Int) ^ (w + 1)) % 2 ^ (w + 2) = 2 ^ (w + 1) := by
  have h := numeric.one_le_two_pow w
  have e1 : (2 : Int) ^ (w + 1) = 2 * 2 ^ w := by rw [pow_succ]; ring
  have e2 : (2 : Int) ^ (w + 2) = 4 * 2 ^ w := by rw [pow_succ, pow_succ]; ring
  apply Int.emod_eq_of_lt
  · rw [e1]; linarith
  · rw [e1, e2]; linarith

/-- The offset image of 1 fits every signed type of at least two bits. -/
theorem numeric.one_add_emod_two_pow (w : Nat) :
    ((1 : Int) + 2 ^ (w + 1)) % 2 ^ (w + 2) = 1 + 2 ^ (w + 1) := by
  have h := numeric.one_le_two_pow w
  have e1 : (2 : Int) ^ (w + 1) = 2 * 2 ^ w := by rw [pow_succ]; ring
  have e2 : (2 : Int) ^ (w + 2) = 4 * 2 ^ w := by rw [pow_succ, pow_succ]; ring
  apply Int.emod_eq_of_lt
  · rw [e1]; linarith
  · rw [e1, e2]; linarith

/-! ## Helper lemmas: loops as folds -/

/-- The loop of `subs` is the left fold of the per-term contributions from the
current accumulator. -/
theorem subs_loop_eq_foldl {T SymSet Cf Key R : Type} (r : ResultOps R)
    (subs_impl : Term Cf Key → String → T → SymSet → R)
    (name : String) (x : T) (s_set : SymSet) (terms : List (Term Cf Key)) (retval : R) :
    subs_loop r subs_impl name x s_set retval terms =
      terms.foldl (fun acc t => r.add_in_place acc (subs_impl t name x s_set)) retval := by
  induction terms generalizing retval with
  | nil => rfl
  | cons t ts ih => simp only [subs_loop, List.foldl_cons, ih]

/-- The loop of case 2 is the left fold over the pairs returned by the key. -/
theorem subs_impl_2_loop_eq_foldl {T SymSet Cf Key Derived M R : Type}
    (o : Case2Ops T SymSet Cf Key Derived M R) (t : Term Cf Key) (s_set : SymSet)
    (ksubs : List (M × Key)) (retval : R) :
    subs_impl_2_loop o t s_set retval ksubs =
      ksubs.foldl
        (fun acc p => o.add_in_place acc
          (o.mul (o.toSeriesOps.single_term_series s_set t.m_cf p.2) p.1)) retval := by
  induction ksubs generalizing retval with
  | nil => rfl
  | cons p ps ih =>
      simp only [subs_impl_2_loop, List.foldl_cons, ih, SeriesOps.single_term_series]

/-- Unfolding of `subs` into a fold, shared by the results on the accumulation. -/
theorem subs_eq_left_fold_aux {T SymSet Cf Key R : Type} (r : ResultOps R)
    (subs_impl : Term Cf Key → String → T → SymSet → R)
    (s_set : SymSet) (terms : List (Term Cf Key)) (name : String) (x : T) :
    subs r subs_impl (SeriesData.mk s_set terms) name x =
      terms.foldl (fun acc t => r.add_in_place acc (subs_impl t name x s_set)) (r.of_int 0) := by
  unfold subs
  exact subs_loop_eq_foldl r subs_impl name x s_set terms (r.of_int 0)

/-! ## C1 - C3: the accumulation and the two strategies -/

/-- C1: for every series with terms `t1..tn` in iteration order, every name and
value, `subs(name, x)` is the left fold `((R(0) + subs_impl(t1)) + ...) + subs_impl(tn)`,
each `subs_impl(ti)` being called with the series' own symbol set. -/
theorem subs_eq_left_fold {T SymSet Cf Key R : Type} (r : ResultOps R)
    (subs_impl : Term Cf Key → String → T → SymSet → R)
    (self : SeriesData SymSet Cf Key) (name : String) (x : T) :
    subs r subs_impl self name x =
      self.m_container.foldl
        (fun acc t => r.add_in_place acc (subs_impl t name x self.m_symbol_set))
        (r.of_int 0) := by
  unfold subs
  exact subs_loop_eq_foldl r subs_impl name x self.m_symbol_set self.m_container (r.of_int 0)

/-- C2: in the coefficient-only strategy the contribution of a term `(c, k)` is
`math::subs(c, name, x)` times the single-term series that holds `(cf_type(1), k)`
under the symbol set `s`; this holds for every key `k`, which reaches the
single-term series as it is. -/
theorem subs_impl_1_eq {T SymSet Cf Key Derived CfR R : Type}
    (o : Case1Ops T SymSet Cf Key Derived CfR R)
    (c : Cf) (k : Key) (name : String) (x : T) (s : SymSet) :
    subs_impl_1 o (Term.mk c k) name x s =
      o.mul (o.math_subs c name x)
        (o.toSeriesOps.single_term_series s (o.cf_of_int 1) k) := by
  rfl

/-- C3: in the key-only strategy the contribution of a term `(c, k)` whose key
substitution returns `(m1,k1)..(mp,kp)` is `E + S(c,k1)*m1 + ... + S(c,kp)*mp`,
with `E` the default-constructed result carrying the symbol set `s` and `S(c,ki)`
the single-term series of the unsubstituted coefficient `c` and the key `ki`;
a key that returns no pair contributes `E`. -/
theorem subs_impl_2_eq {T SymSet Cf Key Derived M R : Type}
    (o : Case2Ops T SymSet Cf Key Derived M R)
    (c : Cf) (k : Key) (name : String) (x : T) (s : SymSet) :
    subs_impl_2 o (Term.mk c k) name x s =
        (o.key_subs k name x s).foldl
          (fun acc p => o.add_in_place acc
            (o.mul (o.toSeriesOps.single_term_series s c p.2) p.1))
          (o.ret_set_symbol_set o.ret_default_ctor s)
    ∧ subs_impl_2 { o with key_subs := fun _ _ _ _ => [] } (Term.mk c k) name x s =
        o.ret_set_symbol_set o.ret_default_ctor s := by
  constructor
  · unfold subs_impl_2
    exact subs_impl_2_loop_eq_foldl o (Term.mk c k) s (o.key_subs k name x s)
      (o.ret_set_symbol_set o.ret_default_ctor s)
  · rfl

/-! ## C4: score and overload selection -/

/-- C4: the score is `cf + 2*key`; an overload is selected by the score exactly
when one of the two facts holds and the other does not: score 1 selects the
coefficient-only overload, score 2 the key-only overload, scores 0 and 3 none,
and then `subs` is rejected whatever the other type facts are. -/
theorem subs_term_score_selects (has_subs key_has_subs : Bool) :
    subs_term_score has_subs key_has_subs = to_unsigned has_subs + 2 * to_unsigned key_has_subs
    ∧ ((subs_impl_select (subs_term_score has_subs key_has_subs)).isSome = true ↔
        has_subs ≠ key_has_subs)
    ∧ subs_term_score false false = 0 ∧ subs_term_score true false = 1
    ∧ subs_term_score false true = 2 ∧ subs_term_score true true = 3
    ∧ subs_impl_select 0 = none ∧ subs_impl_select 1 = some Strategy.cf_only
    ∧ subs_impl_select 2 = some Strategy.key_only ∧ subs_impl_select 3 = none
    ∧ (∀ b r1 r2 a2 c a, subs_impl_overload (TypeFacts.mk b b r1 r2 a2 c a) = none)
    ∧ (∀ b r1 r2 a2 c a, subs_enabled (TypeFacts.mk b b r1 r2 a2 c a) = false) := by
  refine ⟨?_, ?_, by decide, by decide, by decide, by decide, by decide, by decide,
    by decide, by decide, by decide, by decide⟩
  · cases has_subs <;> cases key_has_subs <;> decide
  · cases has_subs <;> cases key_has_subs <;> decide

/-! ## C5: independence of the iteration order -/

/-- C5: when `operator+=` of the result type is associative and commutative, two
term sequences that are permutations of each other give the same `subs` result,
for every name and value. -/
theorem subs_perm {T SymSet Cf Key R : Type} (r : ResultOps R)
    (subs_impl : Term Cf Key → String → T → SymSet → R)
    (assoc : ∀ a b c, r.add_in_place (r.add_in_place a b) c =
      r.add_in_place a (r.add_in_place b c))
    (comm : ∀ a b, r.add_in_place a b = r.add_in_place b a)
    (s_set : SymSet) (terms1 terms2 : List (Term Cf Key)) (perm : terms1.Perm terms2)
    (name : String) (x : T) :
    subs r subs_impl (SeriesData.mk s_set terms1) name x =
      subs r subs_impl (SeriesData.mk s_set terms2) name x := by
  rw [subs_eq_left_fold_aux, subs_eq_left_fold_aux]
  apply List.Perm.foldl_eq' perm
  intro t1 _ t2 _ acc
  rw [assoc, assoc, comm (subs_impl t1 name x s_set)]

/-- Witness of C5: the terms of `3*x^2 + x` in both orders, with an integer result. -/
theorem subs_perm_witness :
    List.Perm [Term.mk (3 : Int) ([2] : model.monomial), Term.mk 1 [1]]
        [Term.mk 1 [1], Term.mk 3 [2]]
    ∧ subs model.integer_result_ops model.eval_term
        (SeriesData.mk ["x"] [Term.mk 3 [2], Term.mk 1 [1]]) "x" 2 =
      subs model.integer_result_ops model.eval_term
        (SeriesData.mk ["x"] [Term.mk 1 [1], Term.mk 3 [2]]) "x" 2 :=
  ⟨List.Perm.swap _ _ [],
   subs_perm model.integer_result_ops model.eval_term
    (fun a b c => Int.add_assoc a b c) (fun a b => Int.add_comm a b)
    ["x"] _ _ (List.Perm.swap _ _ []) "x" 2⟩

/-! ## C6: what selects the strategy -/

/-- C6, counterexample: in the series `3*x^2 + y` with plain-number coefficients and
monomial keys, the key of the term `y` does not depend on `x`, `subs` is available,
and the overload used for that term is the key-only one, not the coefficient-only one. -/
theorem strategy_by_dependence_counterexample :
    model.key_depends ["x", "y"] [0, 1] "x" = false
    ∧ subs_enabled model.polynomial_facts = true
    ∧ subs_impl_overload_for model.polynomial_facts
        (Term.mk (1 : Int) ([0, 1] : model.monomial)) "x" = some Strategy.key_only
    ∧ subs_impl_overload_for model.polynomial_facts
        (Term.mk (1 : Int) ([0, 1] : model.monomial)) "x" ≠ some Strategy.cf_only := by
  decide

/-- C6, amended: the overload used for a term is fixed by the static type facts
alone. It is the same for every term and every symbol name (so also for two calls
on the same term, symbol and value); it is the coefficient-only overload exactly
when the coefficient type has `subs`, the key type has none and `ret_type_1` is
valid, and the key-only overload exactly when the coefficient type has no `subs`
(a plain number), the key type has one and `ret_type_2` is valid and addable in
place, whether or not the key of the term depends on the symbol. -/
theorem subs_strategy_static {Cf Key : Type} (f : TypeFacts) (t t2 : Term Cf Key)
    (name name2 : String) :
    subs_impl_overload_for f t name = subs_impl_overload_for f t2 name2
    ∧ (subs_impl_overload_for f t name = some Strategy.cf_only ↔
        (f.has_subs = true ∧ f.key_has_subs = false ∧ f.ret_type_1_valid = true))
    ∧ (subs_impl_overload_for f t name = some Strategy.key_only ↔
        (f.has_subs = false ∧ f.key_has_subs = true ∧ f.ret_type_2_valid = true
          ∧ f.ret_type_2_addable = true)) := by
  obtain ⟨a, b, r1, r2, a2, c, d⟩ := f
  refine ⟨rfl, ?_, ?_⟩
  · cases a <;> cases b <;> cases r1 <;> cases r2 <;> cases a2 <;>
      simp [subs_impl_overload_for, subs_impl_overload, subs_impl_select, subs_term_score,
        to_unsigned, unsigned_bits]
  · cases a <;> cases b <;> cases r1 <;> cases r2 <;> cases a2 <;>
      simp [subs_impl_overload_for, subs_impl_overload, subs_impl_select, subs_term_score,
        to_unsigned, unsigned_bits]

/-! ## C7: end to end -/

/-- C7: for `S = 3*x^2 + y` over the symbols `x`, `y`, `S.subs("x", 2)` is the
series `12 + y`: the key `x^2` substitutes to the single pair `(4, identity key)`,
the term `3*x^2` contributes the coefficient 12 on the identity key, and the
term `y` contributes itself. -/
theorem subs_example_end_to_end :
    model.polynomial.subs model.example_series "x" 2 =
      model.polynomial.mk ["x", "y"] [Term.mk 12 [0, 0], Term.mk 1 [0, 1]]
    ∧ model.monomial_subs [2, 0] "x" 2 ["x", "y"] = [(4, [0, 0])]
    ∧ subs_impl_2 model.polynomial_case2 (Term.mk 3 [2, 0]) "x" 2 ["x", "y"] =
        model.polynomial.mk ["x", "y"] [Term.mk 12 [0, 0]]
    ∧ subs_impl_2 model.polynomial_case2 (Term.mk 1 [0, 1]) "x" 2 ["x", "y"] =
        model.polynomial.mk ["x", "y"] [Term.mk 1 [0, 1]] := by
  decide

/-! ## C8: the `math::subs` functor of substitutable series -/

/-- C8: for a type derived from the tag whose member `subs` is callable for `T`, the
enabler holds and `math::subs(s, name, x)` returns exactly `s.subs(name, x)`; this
covers the member `subs` of the engine, and makes the coefficient-only strategy
substitute a coefficient that is such a series through its own member. -/
theorem math_subs_delegates {Series T R : Type} (member_subs : Series → String → T → R)
    (s : Series) (name : String) (x : T) :
    detail.subs_impl_subs_series_enabler
        (SubsSeriesType.mk true (some member_subs)) = true
    ∧ math.subs (SubsSeriesType.mk true (some member_subs)) s name x =
        some (member_subs s name x)
    ∧ (∀ (SymSet Cf Key : Type) (r : ResultOps R)
        (impl : Term Cf Key → String → T → SymSet → R) (self : SeriesData SymSet Cf Key),
        math.subs (SubsSeriesType.mk true (some (subs r impl))) self name x =
          some (subs r impl self name x))
    ∧ (∀ (SymSet Key Derived R1 : Type) (o : Case1Ops T SymSet Series Key Derived R R1)
        (k : Key) (s_set : SymSet),
        subs_impl_1 { o with math_subs := math.subs_impl_series_call member_subs }
            (Term.mk s k) name x s_set =
          o.mul (member_subs s name x)
            (o.toSeriesOps.single_term_series s_set (o.cf_of_int 1) k)) := by
  refine ⟨rfl, rfl, ?_, ?_⟩
  · intro SymSet Cf Key r impl self
    rfl
  · intro SymSet Key Derived R1 o k s_set
    rfl

/-! ## C9, C10: the zero test -/

/-- C9: with the default zero test, `is_zero(x)` is `x == T(0)` for every type and
value; for an unsigned or signed integral type of any width, the arbitrary-precision
integer and the rationals this is the case exactly when `x` is `T(0)`, and there
`is_zero(0)` is true and `is_zero(1)` is false. -/
theorem is_zero_default :
    (∀ (T : Type) (o : detail.ZeroTestOps T) (x : T),
        math.is_zero (detail.math_is_zero_impl.primary o) x = o.eq x (o.of_int 0))
    ∧ (∀ (w : Nat) (x : Int),
        (math.is_zero (detail.math_is_zero_impl.primary (numeric.unsigned_ops w)) x = true ↔
          x = numeric.unsigned_of_int w 0)
        ∧ (math.is_zero (detail.math_is_zero_impl.primary (numeric.signed_ops w)) x = true ↔
          x = numeric.signed_of_int w 0)
        ∧ (math.is_zero (detail.math_is_zero_impl.primary numeric.integer_ops) x = true ↔
          x = 0))
    ∧ (∀ (q : Rat),
        math.is_zero (detail.math_is_zero_impl.primary numeric.rational_ops) q = true ↔ q = 0)
    ∧ (∀ w : Nat,
        math.is_zero (detail.math_is_zero_impl.primary (numeric.unsigned_ops (w + 1)))
            (numeric.unsigned_of_int (w + 1) 0) = true
        ∧ math.is_zero (detail.math_is_zero_impl.primary (numeric.unsigned_ops (w + 1)))
            (numeric.unsigned_of_int (w + 1) 1) = false
        ∧ math.is_zero (detail.math_is_zero_impl.primary (numeric.signed_ops (w + 2)))
            (numeric.signed_of_int (w + 2) 0) = true
        ∧ math.is_zero (detail.math_is_zero_impl.primary (numeric.signed_ops (w + 2)))
            (numeric.signed_of_int (w + 2) 1) = false)
    ∧ math.is_zero (detail.math_is_zero_impl.primary numeric.integer_ops) 0 = true
    ∧ math.is_zero (detail.math_is_zero_impl.primary numeric.integer_ops) 1 = false
    ∧ math.is_zero (detail.math_is_zero_impl.primary numeric.rational_ops) 0 = true
    ∧ math.is_zero (detail.math_is_zero_impl.primary numeric.rational_ops) 1 = false := by
  refine ⟨fun _ _ _ => rfl, ?_, ?_, ?_, by decide, by decide, ?_, ?_⟩
  · intro w x
    simp [math.is_zero, detail.math_is_zero_impl.primary, numeric.unsigned_ops,
      numeric.signed_ops, numeric.integer_ops]
  · intro q
    simp [math.is_zero, detail.math_is_zero_impl.primary, numeric.rational_ops]
  · intro w
    have h1 : (1 : Int) % 2 ^ (w + 1) = 1 := numeric.one_emod_two_pow w
    have h2 : ((1 : Int) + 2 ^ (w + 1)) % 2 ^ (w + 2) = 1 + 2 ^ (w + 1) :=
      numeric.one_add_emod_two_pow w
    have h3 : ((2 : Int) ^ (w + 1)) % 2 ^ (w + 2) = 2 ^ (w + 1) :=
      numeric.offset_emod_two_pow w
    simp [math.is_zero, detail.math_is_zero_impl.primary, numeric.unsigned_ops,
      numeric.signed_ops, numeric.unsigned_of_int, numeric.signed_of_int, h1, h2, h3]
  · simp [math.is_zero, detail.math_is_zero_impl.primary, numeric.rational_ops]
  · simp [math.is_zero, detail.math_is_zero_impl.primary, numeric.rational_ops]

/-- C10: for a complex value `c`, `is_zero(c)` is `is_zero(real(c)) && is_zero(imag(c))`,
so it is true exactly when both parts test as zero; `(0,0)` is zero, `(1,0)` and
`(0,1)` are not. -/
theorem is_zero_complex :
    (∀ (V : Type) (impl : detail.math_is_zero_impl V) (c : detail.complex V),
        math.is_zero (detail.math_is_zero_impl.for_complex impl) c =
          (math.is_zero impl c.real && math.is_zero impl c.imag))
    ∧ (∀ (V : Type) (impl : detail.math_is_zero_impl V) (c : detail.complex V),
        math.is_zero (detail.math_is_zero_impl.for_complex impl) c = true ↔
          (math.is_zero impl c.real = true ∧ math.is_zero impl c.imag = true))
    ∧ (∀ (re im : Rat),
        math.is_zero (detail.math_is_zero_impl.for_complex
            (detail.math_is_zero_impl.primary numeric.rational_ops))
          (detail.complex.mk re im) = true ↔ (re = 0 ∧ im = 0))
    ∧ math.is_zero (detail.math_is_zero_impl.for_complex
          (detail.math_is_zero_impl.primary numeric.rational_ops))
        (detail.complex.mk 0 0) = true
    ∧ math.is_zero (detail.math_is_zero_impl.for_complex
          (detail.math_is_zero_impl.primary numeric.rational_ops))
        (detail.complex.mk 1 0) = false
    ∧ math.is_zero (detail.math_is_zero_impl.for_complex
          (detail.math_is_zero_impl.primary numeric.rational_ops))
        (detail.complex.mk 0 1) = false := by
  refine ⟨fun _ _ _ => rfl, ?_, ?_, ?_, ?_, ?_⟩
  · intro V impl c
    simp [math.is_zero, detail.math_is_zero_impl.for_complex]
  · intro re im
    simp [math.is_zero, detail.math_is_zero_impl.for_complex,
      detail.math_is_zero_impl.primary, numeric.rational_ops]
  · simp [math.is_zero, detail.math_is_zero_impl.for_complex,
      detail.math_is_zero_impl.primary, numeric.rational_ops]
  · simp [math.is_zero, detail.math_is_zero_impl.for_complex,
      detail.math_is_zero_impl.primary, numeric.rational_ops]
  · simp [math.is_zero, detail.math_is_zero_impl.for_complex,
      detail.math_is_zero_impl.primary, numeric.rational_ops]

/-! ## Helper lemmas: negation modulo a power of two -/

/-- Negating twice modulo `m` gives back a value that lies in `[0, m)`. -/
theorem numeric.neg_emod_neg_emod (m x : Int) (h0 : 0 ≤ x) (h1 : x < m) :
    (-((-x) % m)) % m = x := by
  have h : (-((-x) % m)) % m = (-(-x)) % m := (Int.mod_modEq (-x) m).neg
  rw [h, neg_neg]
  exact Int.emod_eq_of_lt h0 h1

/-- Negating twice modulo `2*hh` around the offset `hh` gives back a value that
lies in `[-hh, hh)`. -/
theorem numeric.neg_offset_emod (hh x : Int) (h0 : -hh ≤ x) (h1 : x < hh) :
    (-(((-x) + hh) % (2 * hh) - hh) + hh) % (2 * hh) - hh = x := by
  have e : -(((-x) + hh) % (2 * hh) - hh) + hh =
      x + hh + (2 * hh) * (((-x) + hh) / (2 * hh)) := by
    rw [Int.emod_def]; ring
  rw [e, Int.add_mul_emod_self_left, Int.emod_eq_of_lt (by linarith) (by linarith)]
  ring

/-- A power of two with a positive exponent is twice the previous power. -/
theorem numeric.two_pow_pred (w : Nat) (h : 1 ≤ w) : (2 : Int) ^ w = 2 * 2 ^ (w - 1) := by
  obtain ⟨k, rfl⟩ : ∃ k, w = k + 1 := ⟨w - 1, by omega⟩
  simp [pow_succ, mul_comm]

/-- Additivity of the loop of `subs` in its starting value, for an associative
addition with a left identity. -/
theorem subs_foldl_add {R A : Type} (add : R → R → R) (zero : R) (c : A → R)
    (assoc : ∀ a b d, add (add a b) d = add a (add b d))
    (zero_add : ∀ a, add zero a = a) (add_zero : ∀ a, add a zero = a)
    (l : List A) (a : R) :
    l.foldl (fun acc t => add acc (c t)) a =
      add a (l.foldl (fun acc t => add acc (c t)) zero) := by
  induction l generalizing a with
  | nil => simp [add_zero]
  | cons t ts ih =>
      simp only [List.foldl_cons]
      rw [ih (add a (c t)), ih (add zero (c t)), zero_add, assoc]

/-! ## C11: negation is an involution -/

/-- A floating-point value other than a NaN compares equal to itself. -/
theorem numeric.float_eq_self (a : numeric.FP) (h : a ≠ numeric.FP.nan) :
    numeric.float_eq a a = true := by
  cases a with
  | nan => exact absurd rfl h
  | inf s => simp [numeric.float_eq]
  | finite s m e => simp [numeric.float_eq]

/-- C11, counterexample: on a floating-point type, which uses the default negation,
negating a NaN twice gives a NaN, and `negate(negate(x)) == x` is false. -/
theorem negate_nan_counterexample :
    math.negate numeric.float_negate_ops
        (math.negate numeric.float_negate_ops numeric.FP.nan) = numeric.FP.nan
    ∧ numeric.float_eq
        (math.negate numeric.float_negate_ops
          (math.negate numeric.float_negate_ops numeric.FP.nan)) numeric.FP.nan = false := by
  decide

/-- C11, amended: on a fixed-width integral type, signed or unsigned, with negation
taken modulo `2^bits`, negating a value of the type twice restores it, the
minimum value included; the same holds on the arbitrary-precision integer and
on the rationals; on a floating-point type two negations give back the same
value, and it compares equal to the original unless it is a NaN. -/
theorem negate_involution (ty : numeric.IntegralType) (x : Int) (h : ty.in_range x) :
    math.negate (numeric.integral_negate_ops ty)
        (math.negate (numeric.integral_negate_ops ty) x) = x
    ∧ (∀ n : Int, math.negate numeric.integer_negate_ops
        (math.negate numeric.integer_negate_ops n) = n)
    ∧ (∀ q : Rat, math.negate numeric.rational_negate_ops
        (math.negate numeric.rational_negate_ops q) = q)
    ∧ (∀ a : numeric.FP, math.negate numeric.float_negate_ops
        (math.negate numeric.float_negate_ops a) = a)
    ∧ (∀ a : numeric.FP, a ≠ numeric.FP.nan →
        numeric.float_eq (math.negate numeric.float_negate_ops
          (math.negate numeric.float_negate_ops a)) a = true) := by
  have hfp : ∀ a : numeric.FP, math.negate numeric.float_negate_ops
      (math.negate numeric.float_negate_ops a) = a := by
    intro a
    cases a <;>
      simp [math.negate, detail.math_negate_impl.run, numeric.float_negate_ops,
        numeric.float_neg]
  refine ⟨?_, ?_, ?_, hfp, ?_⟩
  · obtain ⟨sg, w⟩ := ty
    cases sg with
    | false =>
        simp only [numeric.IntegralType.in_range, Bool.false_eq_true, if_false] at h
        simp only [math.negate, detail.math_negate_impl.run, numeric.integral_negate_ops,
          numeric.IntegralType.of_int, Bool.false_eq_true, if_false, numeric.unsigned_of_int]
        exact numeric.neg_emod_neg_emod _ x h.1 h.2
    | true =>
        simp only [numeric.IntegralType.in_range, if_true] at h
        simp only [math.negate, detail.math_negate_impl.run, numeric.integral_negate_ops,
          numeric.IntegralType.of_int, if_true, numeric.signed_of_int]
        rw [numeric.two_pow_pred w h.1]
        exact numeric.neg_offset_emod _ x h.2.1 h.2.2
  · intro n
    simp [math.negate, detail.math_negate_impl.run, numeric.integer_negate_ops]
  · intro q
    simp [math.negate, detail.math_negate_impl.run, numeric.rational_negate_ops]
  · intro a ha
    rw [hfp a]
    exact numeric.float_eq_self a ha

/-- Witness of C11: the minimum value -128 of an 8-bit signed integer, whose
negation 128 is computed in `int` and converted back to -128. -/
theorem negate_involution_witness :
    math.negate (numeric.integral_negate_ops (numeric.IntegralType.mk true 8)) (-128) = -128
    ∧ math.negate (numeric.integral_negate_ops (numeric.IntegralType.mk true 8))
        (math.negate (numeric.integral_negate_ops (numeric.IntegralType.mk true 8))
          (-128)) = -128 :=
  ⟨by decide, (negate_involution (numeric.IntegralType.mk true 8) (-128)
    (by simp [numeric.IntegralType.in_range])).1⟩

/-! ## C12: multiply-accumulate -/

/-- The exact sum does not depend on the order of its operands. -/
theorem numeric.exact_add_comm (a b : numeric.Dyadic) : a.exact_add b = b.exact_add a := by
  simp only [numeric.Dyadic.exact_add, min_comm a.exp b.exp, add_comm]

/-- The signed significand of a product is the product of the signed significands. -/
theorem numeric.signed_mant_mul (s t : Bool) (m n : Nat) :
    numeric.signed_mant s m * numeric.signed_mant t n = numeric.signed_mant (xor s t) (m * n) := by
  cases s <;> cases t <;> simp [numeric.signed_mant]

/-- The model at the ends of the exponent range of `double`: the product
`2^-500 * 2^-575` underflows to zero, so `x += y*z` leaves `x = 2^-1074` where
the fused form gives `2^-1073`; the product `2^512 * 2^512` overflows, so
`x += y*z` leaves `x` infinite where the fused form gives `2^1023`. -/
theorem numeric.float_range_examples :
    numeric.float_mul numeric.binary64 (numeric.FP.finite false 1 (-500))
        (numeric.FP.finite false 1 (-575)) = numeric.FP.finite false 0 (-1074)
    ∧ (math.multiply_accumulate_floating false numeric.binary64
        (numeric.FP.finite false 1 (-1074)) (numeric.FP.finite false 1 (-500))
        (numeric.FP.finite false 1 (-575))).1 = numeric.FP.finite false 1 (-1074)
    ∧ (math.multiply_accumulate_floating true numeric.binary64
        (numeric.FP.finite false 1 (-1074)) (numeric.FP.finite false 1 (-500))
        (numeric.FP.finite false 1 (-575))).1 = numeric.FP.finite false 2 (-1074)
    ∧ numeric.float_mul numeric.binary64 (numeric.FP.finite false 1 512)
        (numeric.FP.finite false 1 512) = numeric.FP.inf false
    ∧ (math.multiply_accumulate_floating false numeric.binary64
        (numeric.FP.finite true 1 1023) (numeric.FP.finite false 1 512)
        (numeric.FP.finite false 1 512)).1 = numeric.FP.inf false
    ∧ (math.multiply_accumulate_floating true numeric.binary64
        (numeric.FP.finite true 1 1023) (numeric.FP.finite false 1 512)
        (numeric.FP.finite false 1 512)).1 = numeric.FP.finite false 1 1023 := by
  decide

/-- C12, counterexample: in double precision, for `x = -1`, `y = 1 + 2^-30` and
`z = 1 - 2^-30` (all three are doubles) the default form `x += y*z` leaves `x = 0`,
the fused form `x = fma(y,z,x)` leaves `x = -2^-60`, and the two differ. -/
theorem multiply_accumulate_fma_counterexample :
    numeric.binary64.round true 1 0 = numeric.FP.finite true 1 0
    ∧ numeric.binary64.round false 1073741825 (-30) = numeric.FP.finite false 1073741825 (-30)
    ∧ numeric.binary64.round false 1073741823 (-30) = numeric.FP.finite false 1073741823 (-30)
    ∧ (math.multiply_accumulate_floating false numeric.binary64 (numeric.FP.finite true 1 0)
        (numeric.FP.finite false 1073741825 (-30))
        (numeric.FP.finite false 1073741823 (-30))).1 = numeric.FP.finite false 0 (-53)
    ∧ (math.multiply_accumulate_floating true numeric.binary64 (numeric.FP.finite true 1 0)
        (numeric.FP.finite false 1073741825 (-30))
        (numeric.FP.finite false 1073741823 (-30))).1 = numeric.FP.finite true 1 (-60)
    ∧ numeric.float_eq
        (math.multiply_accumulate_floating false numeric.binary64 (numeric.FP.finite true 1 0)
          (numeric.FP.finite false 1073741825 (-30))
          (numeric.FP.finite false 1073741823 (-30))).1
        (math.multiply_accumulate_floating true numeric.binary64 (numeric.FP.finite true 1 0)
          (numeric.FP.finite false 1073741825 (-30))
          (numeric.FP.finite false 1073741823 (-30))).1 = false := by
  decide

/-- C12, amended: `multiply_accumulate(x, y, z)` leaves `y` and `z` unchanged in both
forms; the default form leaves `x` equal to `x += y*z` in the operators of the
type, which for a floating-point type round the product and then the sum (and
on the arbitrary-precision integer is exactly `x + y*z`); the fused form leaves
`x` equal to `fma(y, z, x)`, the exact `y*z + x` rounded once; for finite `y`
and `z` the two forms agree whenever rounding returns the exact product `y*z`
itself, that is when the product neither needs rounding nor leaves the
exponent range of the type. -/
theorem multiply_accumulate_forms (f : numeric.FloatFormat) (x : numeric.FP)
    (sy : Bool) (my : Nat) (ey : Int) (sz : Bool) (mz : Nat) (ez : Int)
    (h : f.round (xor sy sz) (my * mz) (ey + ez) =
      numeric.FP.finite (xor sy sz) (my * mz) (ey + ez)) :
    math.multiply_accumulate_floating false f x (numeric.FP.finite sy my ey)
        (numeric.FP.finite sz mz ez) =
        (numeric.float_add f x
          (numeric.float_mul f (numeric.FP.finite sy my ey) (numeric.FP.finite sz mz ez)),
          numeric.FP.finite sy my ey, numeric.FP.finite sz mz ez)
    ∧ math.multiply_accumulate_floating true f x (numeric.FP.finite sy my ey)
        (numeric.FP.finite sz mz ez) =
        (numeric.float_fma f (numeric.FP.finite sy my ey) (numeric.FP.finite sz mz ez) x,
          numeric.FP.finite sy my ey, numeric.FP.finite sz mz ez)
    ∧ math.multiply_accumulate_floating true f x (numeric.FP.finite sy my ey)
        (numeric.FP.finite sz mz ez) =
        math.multiply_accumulate_floating false f x (numeric.FP.finite sy my ey)
          (numeric.FP.finite sz mz ez)
    ∧ (∀ (T U V P : Type) (o : detail.MultiplyAccumulateOps T U V P) (a : T) (b : U) (c : V),
        math.multiply_accumulate o a b c = (o.add_in_place a (o.mul b c), b, c))
    ∧ (∀ a b c : Int,
        math.multiply_accumulate numeric.integer_multiply_accumulate_ops a b c =
          (a + b * c, b, c)) := by
  refine ⟨rfl, rfl, ?_, fun _ _ _ _ _ _ _ _ => rfl, fun _ _ _ => rfl⟩
  have hm : numeric.float_mul f (numeric.FP.finite sy my ey) (numeric.FP.finite sz mz ez) =
      numeric.FP.finite (xor sy sz) (my * mz) (ey + ez) := by
    simp only [numeric.float_mul, h]
  simp only [math.multiply_accumulate_floating, if_true, Bool.false_eq_true, if_false,
    detail.math_multiply_accumulate_impl.run_fma, detail.math_multiply_accumulate_impl.run,
    numeric.float_multiply_accumulate_ops, hm]
  cases x with
  | nan => simp [numeric.float_fma, numeric.float_add]
  | inf u => simp [numeric.float_fma, numeric.float_add]
  | finite u l j =>
      simp only [numeric.float_fma, numeric.float_add, numeric.Dyadic.exact_mul,
        numeric.signed_mant_mul, Bool.and_comm u (xor sy sz),
        numeric.exact_add_comm (numeric.Dyadic.mk (numeric.signed_mant u l) j)]

/-- Witness of C12: in double precision `1 + 2*3` is 7 in both forms. -/
theorem multiply_accumulate_forms_witness :
    math.multiply_accumulate_floating true numeric.binary64 (numeric.FP.finite false 1 0)
        (numeric.FP.finite false 2 0) (numeric.FP.finite false 3 0) =
      math.multiply_accumulate_floating false numeric.binary64 (numeric.FP.finite false 1 0)
        (numeric.FP.finite false 2 0) (numeric.FP.finite false 3 0)
    ∧ (math.multiply_accumulate_floating true numeric.binary64 (numeric.FP.finite false 1 0)
        (numeric.FP.finite false 2 0) (numeric.FP.finite false 3 0)).1 =
        numeric.FP.finite false 7 0 :=
  ⟨(multiply_accumulate_forms numeric.binary64 (numeric.FP.finite false 1 0)
      false 2 0 false 3 0 (by decide)).2.2.1, by decide⟩

/-! ## C13, C14, C16: exponentiation -/

/-- C13: for a floating-point base and an exponent `n` of an integral type,
`math::pow(x, n)` fails with a conversion error exactly when `n` is outside the
range of `int`; otherwise it returns `std::pow` of `x` and the very value `n`;
`pow(2.0, 3)` is `8.0` with the exact power as `std::pow`. -/
theorem pow_integral_exponent {F : Type} (std_pow_int : F → Int → F)
    (std_pow : F → F → F) (w : Nat) (x : F) (n : Int) :
    ((∃ e, math.pow std_pow_int std_pow w x (math.Exponent.integral n) = Except.error e) ↔
        (n < numeric.int_min w ∨ numeric.int_max w < n))
    ∧ math.pow std_pow_int std_pow w x (math.Exponent.integral n) =
        (if n < numeric.int_min w then
          Except.error numeric.conversion_error.negative_overflow
        else if numeric.int_max w < n then
          Except.error numeric.conversion_error.positive_overflow
        else Except.ok (std_pow_int x n))
    ∧ (∀ std_pow_rat : Rat → Rat → Rat,
        math.pow (fun (b : Rat) (k : Int) => b ^ k) std_pow_rat 32 2
          (math.Exponent.integral 3) = Except.ok 8) := by
  have key : math.pow std_pow_int std_pow w x (math.Exponent.integral n) =
        (if n < numeric.int_min w then
          Except.error numeric.conversion_error.negative_overflow
        else if numeric.int_max w < n then
          Except.error numeric.conversion_error.positive_overflow
        else Except.ok (std_pow_int x n)) := by
    simp only [math.pow, detail.float_pow_impl_integral, numeric.numeric_cast_int]
    split_ifs <;> rfl
  refine ⟨?_, key, ?_⟩
  · rw [key]
    by_cases h1 : n < numeric.int_min w
    · simp [h1]
    · by_cases h2 : numeric.int_max w < n
      · simp [h1, h2]
      · simp [h1, h2]
  · intro std_pow_rat
    simp only [math.pow, detail.float_pow_impl_integral, numeric.numeric_cast_int,
      numeric.int_min, numeric.int_max]
    norm_num

/-- C14: for a floating-point base and an arbitrary-precision integer exponent `n`,
`math::pow(x, n)` fails with a conversion error whenever `n` is outside the range
of `int`, and inside the range returns `std::pow` of `x` and the very value `n`;
no result is computed from another exponent. -/
theorem pow_integer_exponent {F : Type} (std_pow_int : F → Int → F)
    (std_pow : F → F → F) (w : Nat) (x : F) (n : Int) :
    ((∃ e, math.pow std_pow_int std_pow w x (math.Exponent.integer n) = Except.error e) ↔
        (n < numeric.int_min w ∨ numeric.int_max w < n))
    ∧ (∀ r, math.pow std_pow_int std_pow w x (math.Exponent.integer n) = Except.ok r ↔
        (numeric.int_min w ≤ n ∧ n ≤ numeric.int_max w ∧ r = std_pow_int x n)) := by
  have key : math.pow std_pow_int std_pow w x (math.Exponent.integer n) =
        (if n < numeric.int_min w then
          Except.error numeric.conversion_error.negative_overflow
        else if numeric.int_max w < n then
          Except.error numeric.conversion_error.positive_overflow
        else Except.ok (std_pow_int x n)) := by
    simp only [math.pow, detail.float_pow_impl_integer, numeric.integer_static_cast_int]
    split_ifs <;> rfl
  refine ⟨?_, ?_⟩
  · rw [key]
    by_cases h1 : n < numeric.int_min w
    · simp [h1]
    · by_cases h2 : numeric.int_max w < n
      · simp [h1, h2]
      · simp [h1, h2]
  · intro r
    rw [key]
    by_cases h1 : n < numeric.int_min w
    · simp [h1]
    · by_cases h2 : numeric.int_max w < n
      · simp [h1, h2]
      · simp only [h1, h2, if_false, Except.ok.injEq]
        constructor
        · intro h; exact ⟨not_lt.mp h1, not_lt.mp h2, h.symm⟩
        · intro h; exact h.2.2.symm

/-- C16: `math::pow` has an implementation exactly for a floating-point base with a
floating-point, integral or arbitrary-precision integer exponent; each of these
exponent kinds makes exactly one overload of `float_pow_impl` viable (the one
with `numeric_cast` for integral, with `static_cast` for the integer, without
conversion for floating point), which is the code `pow` runs; every other pair
of kinds has no implementation. -/
theorem pow_defined_iff (T U : numeric.TypeKind) :
    ((math.pow_resolve T U).isSome = true ↔
        (T = numeric.TypeKind.floating_point ∧
          (U = numeric.TypeKind.floating_point ∨ U = numeric.TypeKind.integral
            ∨ U = numeric.TypeKind.integer)))
    ∧ detail.float_pow_impl_viable numeric.TypeKind.integral =
        [detail.FloatPowOverload.numeric_cast_to_int]
    ∧ detail.float_pow_impl_viable numeric.TypeKind.integer =
        [detail.FloatPowOverload.static_cast_to_int]
    ∧ detail.float_pow_impl_viable numeric.TypeKind.floating_point =
        [detail.FloatPowOverload.no_conversion]
    ∧ detail.float_pow_impl_viable numeric.TypeKind.other = []
    ∧ math.pow_resolve numeric.TypeKind.floating_point numeric.TypeKind.integral =
        some detail.FloatPowOverload.numeric_cast_to_int
    ∧ math.pow_resolve numeric.TypeKind.floating_point numeric.TypeKind.integer =
        some detail.FloatPowOverload.static_cast_to_int
    ∧ math.pow_resolve numeric.TypeKind.floating_point numeric.TypeKind.floating_point =
        some detail.FloatPowOverload.no_conversion
    ∧ (∀ (F : Type) (std_pow_int : F → Int → F) (std_pow : F → F → F) (w : Nat) (x y : F)
        (n : Int),
        math.pow std_pow_int std_pow w x (math.Exponent.integral n) =
          detail.float_pow_impl_integral std_pow_int w x n
        ∧ math.pow std_pow_int std_pow w x (math.Exponent.integer n) =
          detail.float_pow_impl_integer std_pow_int w x n
        ∧ math.pow std_pow_int std_pow w x (math.Exponent.floating y) =
          Except.ok (std_pow x y)) := by
  refine ⟨?_, by decide, by decide, by decide, by decide, by decide, by decide, by decide, ?_⟩
  · cases T <;> cases U <;> decide
  · intro F std_pow_int std_pow w x y n
    exact ⟨rfl, rfl, rfl⟩

/-! ## C17, C18: empty series and additivity -/

/-- C17: on a series without terms `subs(name, x)` returns the result type's value
constructed from the literal 0, whatever the name, the value and the symbol set
of the series are; for a polynomial over `x`, `y` without terms the result is
the zero series, which has no symbols. -/
theorem subs_empty_series {T SymSet Cf Key R : Type} (r : ResultOps R)
    (subs_impl : Term Cf Key → String → T → SymSet → R)
    (s_set : SymSet) (name : String) (x : T) :
    subs r subs_impl (SeriesData.mk s_set []) name x = r.of_int 0
    ∧ (∀ (s_set2 : SymSet) (name2 : String) (x2 : T),
        subs r subs_impl (SeriesData.mk s_set []) name x =
          subs r subs_impl (SeriesData.mk s_set2 []) name2 x2)
    ∧ model.polynomial.subs (model.polynomial.mk ["x", "y"] []) "x" 2 =
        model.polynomial.of_int 0
    ∧ (model.polynomial.subs (model.polynomial.mk ["x", "y"] []) "x" 2).m_symbol_set = [] := by
  refine ⟨rfl, fun _ _ _ => rfl, by decide, by decide⟩

/-- C18: when the addition of the result type is associative and the value
constructed from 0 is its identity, `subs` over the concatenation of two term
sequences under one symbol set is `subs` over the first plus `subs` over the second. -/
theorem subs_append {T SymSet Cf Key R : Type} (r : ResultOps R)
    (subs_impl : Term Cf Key → String → T → SymSet → R)
    (assoc : ∀ a b c, r.add_in_place (r.add_in_place a b) c =
      r.add_in_place a (r.add_in_place b c))
    (zero_add : ∀ a, r.add_in_place (r.of_int 0) a = a)
    (add_zero : ∀ a, r.add_in_place a (r.of_int 0) = a)
    (s_set : SymSet) (termsA termsB : List (Term Cf Key)) (name : String) (x : T) :
    subs r subs_impl (SeriesData.mk s_set (termsA ++ termsB)) name x =
      r.add_in_place (subs r subs_impl (SeriesData.mk s_set termsA) name x)
        (subs r subs_impl (SeriesData.mk s_set termsB) name x) := by
  rw [subs_eq_left_fold_aux, subs_eq_left_fold_aux, subs_eq_left_fold_aux, List.foldl_append]
  exact subs_foldl_add r.add_in_place (r.of_int 0) (fun t => subs_impl t name x s_set)
    assoc zero_add add_zero termsB _

/-- Witness of C18: `3*x^2` followed by `x`, with an integer result. -/
theorem subs_append_witness :
    subs model.integer_result_ops model.eval_term
        (SeriesData.mk ["x"] ([Term.mk 3 [2]] ++ [Term.mk 1 [1]])) "x" 2 =
      model.integer_result_ops.add_in_place
        (subs model.integer_result_ops model.eval_term
          (SeriesData.mk ["x"] [Term.mk 3 [2]]) "x" 2)
        (subs model.integer_result_ops model.eval_term
          (SeriesData.mk ["x"] [Term.mk 1 [1]]) "x" 2) :=
  subs_append model.integer_result_ops model.eval_term
    (fun a b c => Int.add_assoc a b c) (fun a => Int.zero_add a) (fun a => Int.add_zero a)
    ["x"] [Term.mk 3 [2]] [Term.mk 1 [1]] "x" 2

end piranha
